import Mathlib

set_option maxRecDepth 20000

/-!
Verification of the ReadmeMuse patch synthesis and application engine
(src/utils/aiAnalyzer.ts) against its natural-language specification.

The TypeScript source is shallowly embedded: strings are Lean String,
line arrays are List String, JavaScript string methods are modelled by
structural functions over the underlying character list so that every
definition is executable and kernel-reducible.  JavaScript semantics are
modelled for the ASCII inputs the engine manipulates: toLowerCase maps
A..Z to a..z, the regex classes backslash-w, backslash-s and dot are the
usual ASCII classes, and an out-of-range (negative) array read, whose
undefined value is rendered as the empty string by Array.prototype.join,
is modelled as the empty string.
-/

/-! ## JavaScript string primitives -/

/-- Character test for the JavaScript regex class backslash-s and for
String.prototype.trim (ASCII whitespace). -/
def isJsSpace (c : Char) : Bool :=
  c == ' ' || c == '\t' || c == '\n' || c == '\r' || c == '\x0b' || c == '\x0c'

/-- Character test for the JavaScript regex class backslash-w. -/
def isWordChar (c : Char) : Bool :=
  ('a' ≤ c && c ≤ 'z') || ('A' ≤ c && c ≤ 'Z') || ('0' ≤ c && c ≤ '9') || c == '_'

/-- Character test for the JavaScript regex dot (anything but a line break). -/
def isDotChar (c : Char) : Bool := c != '\n' && c != '\r'

/-- ASCII lower-casing of one character, as String.prototype.toLowerCase. -/
def jsToLowerChar (c : Char) : Char :=
  if 'A' ≤ c ∧ c ≤ 'Z' then Char.ofNat (c.toNat + 32) else c

/-- Models String.prototype.toLowerCase. -/
def strToLower (s : String) : String := String.mk (s.data.map jsToLowerChar)

/-- Boolean prefix test on character lists. -/
def startsWithAux : List Char → List Char → Bool
  | [], _ => true
  | _ :: _, [] => false
  | p :: ps, c :: cs => p == c && startsWithAux ps cs

/-- Models String.prototype.startsWith. -/
def strStartsWith (s pre : String) : Bool := startsWithAux pre.data s.data

/-- Boolean infix test on character lists. -/
def infixAux (pat : List Char) : List Char → Bool
  | [] => pat.isEmpty
  | c :: cs => startsWithAux pat (c :: cs) || infixAux pat cs

/-- Models String.prototype.includes. -/
def strContains (s sub : String) : Bool := infixAux sub.data s.data

/-- Models s.substring(1). -/
def strDrop1 (s : String) : String := String.mk (s.data.drop 1)

/-- Splits a character list at every occurrence of a separator character. -/
def splitOnChar (sep : Char) : List Char → List (List Char)
  | [] => [[]]
  | c :: cs =>
    match splitOnChar sep cs with
    | [] => [[]]
    | l :: ls => if c = sep then [] :: l :: ls else (c :: l) :: ls

/-- Models s.split("\n"). -/
def jsSplit (s : String) : List String := (splitOnChar '\n' s.data).map String.mk

/-- Character-list body of `joinNl`. -/
def joinNlAux : List (List Char) → List Char
  | [] => []
  | [l] => l
  | l :: ls => l ++ '\n' :: joinNlAux ls

/-- Models lines.join("\n"). -/
def joinNl (ls : List String) : String := String.mk (joinNlAux (ls.map String.data))

/-- Models String.prototype.trim (ASCII whitespace). -/
def jsTrim (s : String) : String :=
  String.mk (((s.data.dropWhile isJsSpace).reverse.dropWhile isJsSpace).reverse)

/-- Models reading a JavaScript array of strings at a possibly negative index;
the resulting undefined is rendered as the empty string by join. -/
def jsGetAt (l : List String) (i : Int) : String :=
  if i < 0 then "" else l.getD i.toNat ""

/-! ## Data model (section 3 of the spec, from the source interfaces) -/

/-- One changed file of the pull request, as in the changedFiles entries of
AnalysisInput in src/utils/aiAnalyzer.ts. -/
structure FileChange where
  filename : String
  patch : String
  additions : Nat
  deletions : Nat
  changes : Nat
deriving DecidableEq

/-- One documentation file with its content, as the docFile arguments in
src/utils/aiAnalyzer.ts. -/
structure DocFile where
  path : String
  content : String
deriving DecidableEq

/-- Repository context carried by AnalysisInput. -/
structure AnalysisContext where
  repository : String
  branch : String
deriving DecidableEq

/-- The AnalysisInput interface of src/utils/aiAnalyzer.ts. -/
structure AnalysisInput where
  prDiff : String
  changedFiles : List FileChange
  docFiles : List DocFile
  prTitle : String
  prBody : String
  context : AnalysisContext
deriving DecidableEq

/-- The DocSuggestion interface of src/types/suggestion.ts. -/
structure DocSuggestion where
  filePath : String
  diffPatch : String
  summary : String
  reasoning : String
deriving DecidableEq

/-! ## Change Signal Detector (checkIfDocNeedsUpdate) -/

/-- The exportPatterns array of checkIfDocNeedsUpdate. -/
def exportPatterns : List String :=
  ["export function", "export class", "export const", "export interface",
   "export type", "// new:", "# new:"]

/-- The hasNewCode computation of checkIfDocNeedsUpdate: some changed file
patch, lower-cased, contains a plus sign directly or with one space before
one of the export patterns. -/
def hasNewCode (changedFiles : List FileChange) : Bool :=
  changedFiles.any fun file =>
    let patch := strToLower file.patch
    exportPatterns.any fun pattern =>
      strContains patch ("+" ++ pattern) || strContains patch ("+ " ++ pattern)

/-- Models path.split("/").pop() with the JavaScript or-empty default. -/
def baseNameOf (filename : String) : String :=
  String.mk (((splitOnChar '/' filename.data).getLast?).getD [])

/-- The docMentionsFiles computation of checkIfDocNeedsUpdate. -/
def docMentionsFiles (docFile : DocFile) (changedFiles : List FileChange) : Bool :=
  changedFiles.any fun f =>
    strContains (strToLower docFile.content) (strToLower (baseNameOf f.filename))

/-- checkIfDocNeedsUpdate of src/utils/aiAnalyzer.ts. -/
def checkIfDocNeedsUpdate (docFile : DocFile) (input : AnalysisInput) : Bool :=
  hasNewCode input.changedFiles || docMentionsFiles docFile input.changedFiles

/-! ## Symbol Extractor (extractNewExports)

The source matches the JavaScript regex
plus, dot-star, export, spaces, kind keyword, spaces, identifier
globally over each patch, then re-runs an inner regex on every match to
take the identifier group.  The matcher below reproduces the backtracking
regex semantics for this concrete pattern: the dot-star is greedy within
one line, the whitespace and identifier runs are maximal munches, and the
global flag resumes scanning after each match. -/

/-- Strips an expected literal off the front of a character list. -/
def stripLit : List Char → List Char → Option (List Char)
  | [], l => some l
  | _ :: _, [] => none
  | p :: ps, c :: cs => if p = c then stripLit ps cs else none

/-- Consumes one or more regex whitespace characters (maximal). -/
def takeSpaces1 (l : List Char) : Option (List Char) :=
  let sp := l.takeWhile isJsSpace
  if sp.isEmpty then none else some (l.drop sp.length)

/-- The declaration kind keywords of the extractor regex alternation. -/
def declKinds : List String := ["function", "class", "const", "interface", "type"]

/-- Tries the kind keywords in regex alternation order; no keyword is a
prefix of another, so at most one matches literally. -/
def stripAnyKw : List String → List Char → Option (List Char)
  | [], _ => none
  | k :: ks, l =>
    match stripLit k.data l with
    | some r => some r
    | none => stripAnyKw ks l

/-- Matches export, spaces, kind keyword, spaces, identifier at the head of
the list; returns the identifier characters and the rest after the match. -/
def matchDeclAt (l : List Char) : Option (List Char × List Char) :=
  match stripLit "export".data l with
  | none => none
  | some r1 =>
    match takeSpaces1 r1 with
    | none => none
    | some r2 =>
      match stripAnyKw declKinds r2 with
      | none => none
      | some r3 =>
        match takeSpaces1 r3 with
        | none => none
        | some r4 =>
          let idChars := r4.takeWhile isWordChar
          if idChars.isEmpty then none else some (idChars, r4.drop idChars.length)

/-- Outer regex continuation after a plus sign: the greedy dot-star picks
the largest same-line offset at which the declaration pattern matches;
returns the full match text and the rest of the input. -/
def outerMatchFrom (t : List Char) : Option (List Char × List Char) :=
  let dotLen := (t.takeWhile isDotChar).length
  match (List.range (dotLen + 1)).reverse.find? (fun j => (matchDeclAt (t.drop j)).isSome) with
  | none => none
  | some j =>
    match matchDeclAt (t.drop j) with
    | some (_, rest) => some ('+' :: t.take (t.length - rest.length), rest)
    | none => none

/-- Global scan of the outer extractor regex; the fuel starts at the input
length and dominates the remaining input, so it never runs out. -/
def outerScanAux : Nat → List Char → List (List Char)
  | 0, _ => []
  | Nat.succ _, [] => []
  | Nat.succ fuel, c :: cs =>
    if c = '+' then
      match outerMatchFrom cs with
      | some (m, rest) => m :: outerScanAux fuel rest
      | none => outerScanAux fuel cs
    else outerScanAux fuel cs

/-- All matches of the outer extractor regex, in order, as patch.match(re). -/
def outerScan (l : List Char) : List (List Char) := outerScanAux l.length l

/-- The inner regex applied to one outer match: first position at which the
declaration pattern matches, returning the identifier group. -/
def innerFirstDecl : List Char → Option String
  | [] => none
  | c :: cs =>
    match matchDeclAt (c :: cs) with
    | some (idChars, _) => some (String.mk idChars)
    | none => innerFirstDecl cs

/-- Models the spread of new Set(exports): de-duplication keeping the first
occurrence of each element. -/
def dedupKeepFirst (seen : List String) : List String → List String
  | [] => []
  | s :: rest =>
    if seen.contains s then dedupKeepFirst seen rest
    else s :: dedupKeepFirst (s :: seen) rest

/-- extractNewExports of src/utils/aiAnalyzer.ts. -/
def extractNewExports (changedFiles : List FileChange) : List String :=
  let exps := changedFiles.flatMap fun file =>
    (outerScan file.patch.data).filterMap innerFirstDecl
  dedupKeepFirst [] exps

/-! ## Patch Synthesizer (createUnifiedDiff) -/

/-- The first-difference loop of createUnifiedDiff: the least common index
at which the two line arrays differ, and 0 when no such index exists. -/
def findFirstDiff (original modified : List String) : Nat :=
  match (List.range (min original.length modified.length)).find?
      (fun i => original.getD i "" != modified.getD i "") with
  | some i => i
  | none => 0

/-- createUnifiedDiff of src/utils/aiAnalyzer.ts.  Nat subtraction models
Math.max(0, firstDiff - contextLines); the new count of the hunk header is
computed over Int exactly as the JavaScript number arithmetic. -/
def createUnifiedDiff (path : String) (original modified : List String) : String :=
  let firstDiff := findFirstDiff original modified
  let contextLines := 3
  let start := firstDiff - contextLines
  let endIdx := min original.length (firstDiff + contextLines + 5)
  let newCount : Int :=
    (endIdx : Int) - (start : Int) + ((modified.length : Int) - (original.length : Int))
  let header := "@@ -" ++ toString (start + 1) ++ "," ++ toString (endIdx - start)
    ++ " +" ++ toString (start + 1) ++ "," ++ toString newCount ++ " @@"
  let ctx := (List.range' start (min (start + contextLines) original.length - start)).map
    (fun i => " " ++ original.getD i "")
  let diffStart := start + contextLines
  let diffs := (List.range' diffStart (min endIdx original.length - diffStart)).flatMap
    (fun i =>
      if i < modified.length ∧ original.getD i "" ≠ modified.getD i "" then
        ["-" ++ original.getD i "", "+" ++ modified.getD i ""]
      else
        [" " ++ original.getD i ""])
  let tailAdds := (List.range' original.length
      (min modified.length (endIdx + 5) - original.length)).map
    (fun i => "+" ++ modified.getD i "")
  joinNl (["--- a/" ++ path, "+++ b/" ++ path, header] ++ ctx ++ diffs ++ tailAdds)

/-! ## Heuristic suggestion path (generateDiffPatch, analyzeDocumentationFile) -/

/-- findSectionIndex of src/utils/aiAnalyzer.ts: the first header, in
argument order, that occurs as a trimmed lower-cased line; none models the
JavaScript minus-one result. -/
def findSectionIndex (lines : List String) : List String → Option Nat
  | [] => none
  | h :: hs =>
    match lines.findIdx? (fun line => strToLower (jsTrim line) == strToLower h) with
    | some i => some i
    | none => findSectionIndex lines hs

/-- generateReasoning of src/utils/aiAnalyzer.ts. -/
def generateReasoning (input : AnalysisInput) : String :=
  let fileCount := input.changedFiles.length
  let additions := input.changedFiles.foldl (fun sum f => sum + f.additions) 0
  "This PR modifies " ++ toString fileCount ++ " file(s) with " ++ toString additions
    ++ " addition(s). Documentation should be updated to reflect these changes and maintain accuracy."

/-- generateDiffPatch of src/utils/aiAnalyzer.ts.  The two early returns of
the source become the branches of the conditional; list take and drop model
Array.prototype.splice insertion. -/
def generateDiffPatch (docFile : DocFile) (input : AnalysisInput) : Option String :=
  let lines := jsSplit docFile.content
  let contentLower := strToLower docFile.content
  let hasChangelogSection :=
    strContains contentLower "## changes" || strContains contentLower "## changelog"
      || strContains contentLower "## recent updates"
  if hasChangelogSection = false ∧ docFile.path = "README.md" then
    let insertIndex := min 3 lines.length
    let updatedLines := lines.take insertIndex
      ++ ["", "## Recent Changes", "", "- " ++ input.prTitle, ""]
      ++ lines.drop insertIndex
    some (createUnifiedDiff docFile.path lines updatedLines)
  else
    let newExports := extractNewExports input.changedFiles
    if 0 < newExports.length ∧ docFile.path = "README.md" then
      match findSectionIndex lines ["## API", "## Usage", "## Features"] with
      | some apiSectionIndex =>
        let exportDocs := joinNl (newExports.map fun exp => "- `" ++ exp ++ "`: [Add description]")
        let updatedLines := lines.take (apiSectionIndex + 1)
          ++ ["", exportDocs, ""] ++ lines.drop (apiSectionIndex + 1)
        some (createUnifiedDiff docFile.path lines updatedLines)
      | none => none
    else none

/-- analyzeDocumentationFile of src/utils/aiAnalyzer.ts; the falsy test on
the generated patch string is modelled by the empty-string comparison. -/
def analyzeDocumentationFile (docFile : DocFile) (input : AnalysisInput) : Option DocSuggestion :=
  if !(checkIfDocNeedsUpdate docFile input) then none
  else
    match generateDiffPatch docFile input with
    | none => none
    | some diffPatch =>
      if diffPatch = "" then none
      else some
        { filePath := docFile.path
          diffPatch := diffPatch
          summary := "Update " ++ docFile.path ++ " based on PR changes"
          reasoning := generateReasoning input }

/-! ## Patch Applier (applyDiffPatch) -/

/-- Parses the hunk header regex of applyDiffPatch at the head of a
character list: at-at, hyphen, digits, optional comma and digits, space,
plus, digits, optional comma and digits, space, at-at.  The digit runs are
maximal, which coincides with the backtracking regex semantics because no
shorter run can let the following literal match. -/
def parseNumPair (l : List Char) : Option (Nat × Option Nat × List Char) :=
  let ds := l.takeWhile fun c => '0' ≤ c && c ≤ '9'
  if ds.isEmpty then none
  else
    let d1 := ds.foldl (fun a c => 10 * a + (c.toNat - '0'.toNat)) 0
    let r := l.drop ds.length
    match r with
    | ',' :: r2 =>
      let ds2 := r2.takeWhile fun c => '0' ≤ c && c ≤ '9'
      if ds2.isEmpty then some (d1, none, r2)
      else some (d1, some (ds2.foldl (fun a c => 10 * a + (c.toNat - '0'.toNat)) 0),
                 r2.drop ds2.length)
    | _ => some (d1, none, r)

/-- One attempted match of the hunk header regex at a fixed position. -/
def matchHunkAt (l : List Char) : Option (Nat × Option Nat × Nat × Option Nat) :=
  match stripLit "@@ -".data l with
  | none => none
  | some r1 =>
    match parseNumPair r1 with
    | none => none
    | some (a, b, r2) =>
      match stripLit " +".data r2 with
      | none => none
      | some r3 =>
        match parseNumPair r3 with
        | none => none
        | some (c, d, r4) =>
          match stripLit " @@".data r4 with
          | none => none
          | some _ => some (a, b, c, d)

/-- First match of the hunk header regex anywhere in the line, as the
JavaScript match method. -/
def findHunkNums : List Char → Option (Nat × Option Nat × Nat × Option Nat)
  | [] => none
  | c :: cs =>
    match matchHunkAt (c :: cs) with
    | some res => some res
    | none => findHunkNums cs

/-- The original start line parsed from a hunk header, group one of the
regex in applyDiffPatch. -/
def parseHunkStart (line : String) : Option Nat :=
  match findHunkNums line.data with
  | some (a, _, _, _) => some a
  | none => none

/-- The mutable state of the applyDiffPatch loop: the inDiff flag, the
read cursor into the original lines (Int, because the source computes
parseInt minus one, which is negative for a zero start), and the output
lines accumulated so far. -/
structure ApplyState where
  inDiff : Bool
  lineIndex : Int
  newLines : List String
deriving DecidableEq

/-- One iteration of the main loop of applyDiffPatch, in source order:
header lines first (an at-at header re-seeds the cursor when its regex
matches), then the not-inDiff skip, then insertion, deletion, context and
blank-line handling. -/
def applyStep (originalLines : List String) (st : ApplyState) (line : String) : ApplyState :=
  if strStartsWith line "---" || strStartsWith line "+++" || strStartsWith line "@@" then
    if strStartsWith line "@@" then
      match parseHunkStart line with
      | some a => { st with inDiff := true, lineIndex := (a : Int) - 1 }
      | none => { st with inDiff := true }
    else { st with inDiff := true }
  else if !st.inDiff then st
  else if strStartsWith line "+" then
    { st with newLines := st.newLines ++ [strDrop1 line] }
  else if strStartsWith line "-" then
    { st with lineIndex := st.lineIndex + 1 }
  else if strStartsWith line " " then
    if st.lineIndex < (originalLines.length : Int) then
      { st with newLines := st.newLines ++ [jsGetAt originalLines st.lineIndex],
                lineIndex := st.lineIndex + 1 }
    else
      { st with newLines := st.newLines ++ [strDrop1 line] }
  else if jsTrim line = "" then
    if st.lineIndex < (originalLines.length : Int) then
      { st with newLines := st.newLines ++ [jsGetAt originalLines st.lineIndex],
                lineIndex := st.lineIndex + 1 }
    else st
  else st

/-- The state-machine pass of applyDiffPatch: the main for loop over the
patch lines. -/
def applyFirstPass (originalLines lines : List String) : List String :=
  (lines.foldl (applyStep originalLines) { inDiff := false, lineIndex := 0, newLines := [] }).newLines

/-- The best-effort fallback pass of applyDiffPatch: every insertion line
and every context line taken verbatim. -/
def applyFallbackPass (lines : List String) : List String :=
  lines.foldl (fun acc line =>
    if strStartsWith line "+" && !strStartsWith line "+++" then acc ++ [strDrop1 line]
    else if strStartsWith line " " then acc ++ [strDrop1 line]
    else acc) []

/-- The sentinel comment appended by the terminal fallback of applyDiffPatch. -/
def reviewSentinel : String :=
  "\n\n<!-- ReadmeMuse: Could not automatically apply diff. Please review manually. -->\n"

/-- applyDiffPatch of src/utils/aiAnalyzer.ts. -/
def applyDiffPatch (originalContent diffPatch : String) : String :=
  let lines := jsSplit diffPatch
  let originalLines := jsSplit originalContent
  let newLines1 := applyFirstPass originalLines lines
  let newLines2 := if newLines1.isEmpty then applyFallbackPass lines else newLines1
  if newLines2.isEmpty then originalContent ++ reviewSentinel
  else joinNl newLines2

/-! ## Patch Normalizer (spec section 4.4; no implementation exists under src) -/

/-- Modelled from the spec: the raw three-field candidate produced by the
external text-generation collaborator (section 6); a missing field of the
JSON object is an absent option.  The Patch Normalizer itself is not
present under src, only its contract is specified. -/
structure RawCandidate where
  summary : Option String
  reasoning : Option String
  diffPatch : Option String
deriving DecidableEq

/-- Modelled from the spec: normalize of section 4.4.  The outer option is
the parse of the three-field shape from the external response (none when
the shape cannot be parsed); the result is none when any of summary,
reasoning or diffPatch is missing or empty, and otherwise a Suggestion
carrying the three fields, with the file path supplied by the caller.
The spec names this operation normalize; the Lean name avoids a clash with
the Mathlib declaration of that name. -/
def normalizeSuggestion (filePath : String) (raw : Option RawCandidate) : Option DocSuggestion :=
  match raw with
  | none => none
  | some r =>
    match r.summary, r.reasoning, r.diffPatch with
    | some s, some re, some d =>
      if s = "" ∨ re = "" ∨ d = "" then none
      else some { filePath := filePath, diffPatch := d, summary := s, reasoning := re }
    | none, _, _ => none
    | some _, none, _ => none
    | some _, some _, none => none

/-! ## Spec-side formalizations used to compare the spec wording with the code -/

/-- Formalized from the wording of claim C3, clause (a): the patch contains
an added line, that is a line whose first character marks an addition,
optionally followed by whitespace, matching one of the declaration markers
case-insensitively. -/
def specAddedLineHit (patch : String) : Bool :=
  (jsSplit patch).any fun line =>
    strStartsWith line "+" &&
      exportPatterns.any fun pat =>
        strStartsWith (strToLower (String.mk ((strDrop1 line).data.dropWhile isJsSpace))) pat

/-- Formalized from the wording of claim C3: the detection rule as the spec
states it, clause (a) over added lines or clause (b) on the base name of a
changed file occurring in the documentation content. -/
def specNeedsUpdate (docFile : DocFile) (changedFiles : List FileChange) : Bool :=
  (changedFiles.any fun f => specAddedLineHit f.patch) ||
    (changedFiles.any fun f =>
      strContains (strToLower docFile.content) (strToLower (baseNameOf f.filename)))

/-- Formalized from the wording of claim C8: the in-hunk handling of one
patch line exactly as the claim states it, with no carve-out for '---'
headers on deletion lines and no range condition on the cursor. -/
def claimInHunkStep (originalLines : List String) (st : ApplyState) (line : String) : ApplyState :=
  if strStartsWith line "+" && !strStartsWith line "+++" then
    { st with newLines := st.newLines ++ [strDrop1 line] }
  else if strStartsWith line "-" then
    { st with lineIndex := st.lineIndex + 1 }
  else if strStartsWith line " " then
    { st with newLines := st.newLines ++ [jsGetAt originalLines st.lineIndex],
              lineIndex := st.lineIndex + 1 }
  else if jsTrim line = "" then
    { st with newLines := st.newLines ++ [jsGetAt originalLines st.lineIndex],
              lineIndex := st.lineIndex + 1 }
  else st

/-! ## Measurement helpers for stating the header-consistency property -/

/-- The body of a synthesized patch: everything after the two file header
lines and the single hunk header line that createUnifiedDiff always emits. -/
def synthesizedBody (patch : String) : List String := (jsSplit patch).drop 3

/-- Number of context plus add lines in a hunk body. -/
def countContextAdd (body : List String) : Nat :=
  body.countP fun l => strStartsWith l " " || strStartsWith l "+"

/-- Number of context plus delete lines in a hunk body. -/
def countContextDelete (body : List String) : Nat :=
  body.countP fun l => strStartsWith l " " || strStartsWith l "-"

/-- The declared original count and new count of the hunk header line that
createUnifiedDiff emits as the third line of every patch. -/
def hunkHeaderCounts (patch : String) : Option (Nat × Nat) :=
  match (jsSplit patch).drop 2 with
  | l :: _ =>
    match findHunkNums l.data with
    | some (_, some b, _, some d) => some (b, d)
    | _ => none
  | [] => none

/-! ## Helper lemmas -/

lemma startsWithAux_iff (p l : List Char) : startsWithAux p l = true ↔ p <+: l := by
  induction p generalizing l with
  | nil => simp [startsWithAux]
  | cons a as ih =>
    cases l with
    | nil => simp [startsWithAux]
    | cons b bs =>
      simp only [startsWithAux, Bool.and_eq_true, beq_iff_eq, List.cons_prefix_cons, ih]

lemma infixAux_iff (pat l : List Char) : infixAux pat l = true ↔ pat <:+: l := by
  induction l with
  | nil => simp [infixAux, List.isEmpty_iff]
  | cons c cs ih =>
    rw [infixAux, Bool.or_eq_true, startsWithAux_iff, ih, List.infix_cons_iff]

lemma strContains_iff (s sub : String) : strContains s sub = true ↔ sub.data <:+: s.data := by
  simp [strContains, infixAux_iff]

lemma strStartsWith_head (s p : String) (c : Char) (ps : List Char)
    (hp : p.data = c :: ps) (h : strStartsWith s p = true) : ∃ t, s.data = c :: t := by
  unfold strStartsWith at h
  rw [hp] at h
  cases hs : s.data with
  | nil =>
    rw [hs] at h
    simp [startsWithAux] at h
  | cons b bs =>
    rw [hs] at h
    simp only [startsWithAux, Bool.and_eq_true, beq_iff_eq] at h
    refine ⟨bs, ?_⟩
    rw [← h.1]

lemma strStartsWith_false_of_head (s p : String) (c d : Char) (t ps : List Char)
    (hs : s.data = c :: t) (hp : p.data = d :: ps) (hd : d ≠ c) :
    strStartsWith s p = false := by
  unfold strStartsWith
  rw [hs, hp]
  simp [startsWithAux, hd]

lemma dropWhile_nil_iff_all (p : Char → Bool) (l : List Char) :
    l.dropWhile p = [] ↔ ∀ x ∈ l, p x = true := by
  rw [List.dropWhile_eq_nil_iff]

lemma all_dropWhile_imp_nil (p : Char → Bool) (l : List Char)
    (h : ∀ x ∈ l.dropWhile p, p x = true) : l.dropWhile p = [] := by
  induction l with
  | nil => rfl
  | cons c cs ih =>
    by_cases hc : p c = true
    · rw [List.dropWhile_cons, if_pos hc] at h ⊢
      exact ih h
    · rw [List.dropWhile_cons, if_neg hc] at h
      exact absurd (h c (List.mem_cons_self c cs)) hc

lemma jsTrim_eq_empty_iff (s : String) : jsTrim s = "" ↔ ∀ x ∈ s.data, isJsSpace x = true := by
  unfold jsTrim
  constructor
  · intro h
    have h2 : ((s.data.dropWhile isJsSpace).reverse.dropWhile isJsSpace).reverse = [] :=
      congrArg String.data h
    rw [List.reverse_eq_nil_iff, dropWhile_nil_iff_all] at h2
    have h4 : ∀ x ∈ s.data.dropWhile isJsSpace, isJsSpace x = true := by
      intro x hx
      exact h2 x (List.mem_reverse.2 hx)
    have h5 : s.data.dropWhile isJsSpace = [] := all_dropWhile_imp_nil _ _ h4
    rw [dropWhile_nil_iff_all] at h5
    exact h5
  · intro h
    have h1 : s.data.dropWhile isJsSpace = [] := (dropWhile_nil_iff_all _ _).2 h
    rw [h1]
    rfl

lemma blank_no_marker (s p : String) (h : jsTrim s = "") (c : Char) (ps : List Char)
    (hp : p.data = c :: ps) (hc : isJsSpace c = false) : strStartsWith s p = false := by
  have hall := (jsTrim_eq_empty_iff s).1 h
  unfold strStartsWith
  rw [hp]
  cases hs : s.data with
  | nil => rfl
  | cons b bs =>
    have hb : isJsSpace b = true := hall b (by rw [hs]; exact List.mem_cons_self b bs)
    have hcb : c ≠ b := by
      intro he
      rw [he, hb] at hc
      exact absurd hc (by simp)
    simp [startsWithAux, hcb]


/-! ## Claim theorems -/

/-- C1: the round-trip law fails on the code.  On the synthesize-and-apply
scenario of the spec, the synthesized patch emits the divergent line
"Body" as a context line (the context window of createUnifiedDiff overlaps
the divergence point when the first difference is at an index below 3), so
applying the patch reconstructs a text in which the inserted heading
"## Recent Changes" is missing: the result differs from the joined
proposed lines. -/
theorem roundTrip_fails_on_spec_scenario :
    applyDiffPatch (joinNl ["# Proj", "", "Body"])
        (createUnifiedDiff "README.md" ["# Proj", "", "Body"]
          ["# Proj", "", "## Recent Changes", "", "- Added X", "", "Body"])
      = "# Proj\n\nBody\n\n- Added X\n\nBody" ∧
    applyDiffPatch (joinNl ["# Proj", "", "Body"])
        (createUnifiedDiff "README.md" ["# Proj", "", "Body"]
          ["# Proj", "", "## Recent Changes", "", "- Added X", "", "Body"])
      ≠ joinNl ["# Proj", "", "## Recent Changes", "", "- Added X", "", "Body"] :=
  ⟨by decide, by decide⟩

/-- C2: header consistency fails on the code.  When the proposed line
sequence is shorter than the original, createUnifiedDiff declares a new
count that subtracts the length difference while the emitted body still
contains every overlapping line as context: on original lines a, b and
proposed line a the header declares counts 2 and 1, but the body has two
context lines, so the context-plus-add count is 2, not 1.  The
context-plus-delete side does match here. -/
theorem synthesize_header_count_mismatch :
    createUnifiedDiff "README.md" ["a", "b"] ["a"]
      = "--- a/README.md\n+++ b/README.md\n@@ -1,2 +1,1 @@\n a\n b" ∧
    hunkHeaderCounts (createUnifiedDiff "README.md" ["a", "b"] ["a"]) = some (2, 1) ∧
    countContextDelete (synthesizedBody (createUnifiedDiff "README.md" ["a", "b"] ["a"])) = 2 ∧
    countContextAdd (synthesizedBody (createUnifiedDiff "README.md" ["a", "b"] ["a"])) = 2 :=
  ⟨by decide, by decide, by decide, by decide⟩

/-- C5: the extractor is not addition-only.  The extractor regex matches a
plus sign anywhere in a line, not only as the diff insertion marker at the
start of a line, so a patch consisting of a single deletion line whose text
contains a plus sign before an export declaration still yields that
identifier.  The patch below is one line, that line starts with the
deletion marker, and the extractor still returns the identifier. -/
theorem extractor_extracts_from_deletion_line :
    jsSplit "-const x = a+b; export function leaked(y)"
      = ["-const x = a+b; export function leaked(y)"] ∧
    strStartsWith "-const x = a+b; export function leaked(y)" "-" = true ∧
    extractNewExports [⟨"a.ts", "-const x = a+b; export function leaked(y)", 0, 1, 1⟩]
      = ["leaked"] :=
  ⟨by decide, by decide, by decide⟩

/-- C3 counterexample: the detection rule of the code is not the added-line
rule the claim states.  On a single-line patch that is not an added line
(it starts with the letter x) but contains a plus sign directly before an
export marker, the code returns true while the claimed rule yields false
(the doc content mentions no changed file name either). -/
theorem detection_rule_counterexample :
    specNeedsUpdate ⟨"README.md", "# Proj"⟩
        [⟨"notmentioned.xyz", "x+export function f", 0, 0, 0⟩] = false ∧
    checkIfDocNeedsUpdate ⟨"README.md", "# Proj"⟩
        ⟨"", [⟨"notmentioned.xyz", "x+export function f", 0, 0, 0⟩], [], "t", "", ⟨"", ""⟩⟩
      = true :=
  ⟨by decide, by decide⟩

/-- C3 amended: needsUpdate returns true exactly when (a) some changed file
patch, lower-cased, contains anywhere in its text (not necessarily at the
start of an added line) a plus sign followed directly, or after exactly one
space, by one of the fixed declaration markers, or (b) the documentation
content contains, case-insensitively, the base name of some changed file. -/
theorem needsUpdate_iff_marker_substring (docFile : DocFile) (input : AnalysisInput) :
    checkIfDocNeedsUpdate docFile input = true ↔
      (∃ f ∈ input.changedFiles, ∃ pat ∈ exportPatterns,
          ("+" ++ pat).data <:+: (strToLower f.patch).data ∨
          ("+ " ++ pat).data <:+: (strToLower f.patch).data) ∨
      (∃ f ∈ input.changedFiles,
          (strToLower (baseNameOf f.filename)).data <:+: (strToLower docFile.content).data) := by
  unfold checkIfDocNeedsUpdate hasNewCode docMentionsFiles
  simp only [Bool.or_eq_true, List.any_eq_true, strContains_iff]

/-- C4 counterexample: on the detection-negative scenario of the spec the
code returns true even though the doc content does not mention the changed
file.  The addition line of the scenario patch itself starts with a plus
sign followed by the export-function marker, so the substring heuristic
fires. -/
theorem detection_negative_scenario_counterexample :
    strContains (strToLower "# Proj") (strToLower "a.ts") = false ∧
    checkIfDocNeedsUpdate ⟨"README.md", "# Proj"⟩
        ⟨"",
         [⟨"a.ts",
           "@@ ... @@\n-export function foo() \x7b\x7d\n+export function foo() \x7b return 1; \x7d",
           1, 1, 2⟩],
         [], "t", "", ⟨"", ""⟩⟩
      = true :=
  ⟨by decide, by decide⟩

/-- C4 amended: for the scenario change, needsUpdate returns true for every
documentation snapshot, whether or not it mentions a.ts, because the
addition line of the patch contains the export-function marker directly
after its plus sign. -/
theorem detection_negative_scenario_amended (docFile : DocFile)
    (prDiff prTitle prBody repo branch : String) (docFiles : List DocFile) :
    checkIfDocNeedsUpdate docFile
        ⟨prDiff,
         [⟨"a.ts",
           "@@ ... @@\n-export function foo() \x7b\x7d\n+export function foo() \x7b return 1; \x7d",
           1, 1, 2⟩],
         docFiles, prTitle, prBody, ⟨repo, branch⟩⟩
      = true := by
  have h : hasNewCode
      [⟨"a.ts",
        "@@ ... @@\n-export function foo() \x7b\x7d\n+export function foo() \x7b return 1; \x7d",
        1, 1, 2⟩] = true := by decide
  simp [checkIfDocNeedsUpdate, h]

/-- C6: applier totality.  The embedded applyDiffPatch is a total function
on arbitrary original and patch texts, so for every input, including the
empty string, text with no diff headers and text with inconsistent hunk
counts, it terminates with a text result; every partial JavaScript
operation of the source (array reads, parseInt) is guarded in the source
and modelled totally. -/
theorem applyDiffPatch_total (originalContent diffPatch : String) :
    ∃ result : String, applyDiffPatch originalContent diffPatch = result :=
  ⟨applyDiffPatch originalContent diffPatch, rfl⟩

/-- C7: terminal fallback.  Whenever the state-machine pass and the
best-effort fallback pass both produce no output lines, applyDiffPatch
returns the original content with the sentinel review marker appended, so
the original content is preserved and the result is not empty. -/
theorem applyDiffPatch_terminal_fallback (originalContent diffPatch : String)
    (h1 : applyFirstPass (jsSplit originalContent) (jsSplit diffPatch) = [])
    (h2 : applyFallbackPass (jsSplit diffPatch) = []) :
    applyDiffPatch originalContent diffPatch = originalContent ++ reviewSentinel := by
  simp [applyDiffPatch, h1, h2]

/-- Witness for C7 at the malformed-external-patch scenario of the spec. -/
theorem applyDiffPatch_terminal_fallback_witness :
    applyFirstPass (jsSplit "# Proj") (jsSplit "not a real diff") = [] ∧
    applyFallbackPass (jsSplit "not a real diff") = [] ∧
    applyDiffPatch "# Proj" "not a real diff" = "# Proj" ++ reviewSentinel :=
  ⟨by decide, by decide,
   applyDiffPatch_terminal_fallback "# Proj" "not a real diff" (by decide) (by decide)⟩

/-- C8 counterexample: the claim says a line with a leading hyphen advances
the cursor without emitting, but a line starting with three hyphens is
handled by the header branch of the code, which leaves the cursor alone;
the code step and the step the claim describes disagree on that line. -/
theorem in_hunk_deletion_header_counterexample :
    strStartsWith "---" "-" = true ∧
    applyStep ["a"] ⟨true, 0, []⟩ "---" ≠ claimInHunkStep ["a"] ⟨true, 0, []⟩ "---" :=
  ⟨by decide, by decide⟩

/-- C8 amended: while in-hunk, an insertion line (leading plus, not a
three-plus header) emits its content verbatim without advancing the
cursor; a deletion line (leading hyphen, not a three-hyphen header)
advances the cursor without emitting; a context line (leading space) emits
the original line at the cursor and advances when the cursor is below the
original line count, and otherwise emits the patch copy without advancing;
a line that trims to empty and starts with none of the markers behaves as
context when the cursor is in range and otherwise emits nothing; lines
starting with three hyphens or three pluses are header lines and only set
the inDiff flag. -/
theorem applyStep_in_hunk_semantics (originalLines : List String) (st : ApplyState)
    (line : String) (hin : st.inDiff = true) :
    (strStartsWith line "+" = true → strStartsWith line "+++" = false →
      applyStep originalLines st line = { st with newLines := st.newLines ++ [strDrop1 line] }) ∧
    (strStartsWith line "-" = true → strStartsWith line "---" = false →
      applyStep originalLines st line = { st with lineIndex := st.lineIndex + 1 }) ∧
    (strStartsWith line " " = true → st.lineIndex < (originalLines.length : Int) →
      applyStep originalLines st line =
        { st with newLines := st.newLines ++ [jsGetAt originalLines st.lineIndex],
                  lineIndex := st.lineIndex + 1 }) ∧
    (strStartsWith line " " = true → ¬st.lineIndex < (originalLines.length : Int) →
      applyStep originalLines st line = { st with newLines := st.newLines ++ [strDrop1 line] }) ∧
    (jsTrim line = "" → strStartsWith line " " = false →
      st.lineIndex < (originalLines.length : Int) →
      applyStep originalLines st line =
        { st with newLines := st.newLines ++ [jsGetAt originalLines st.lineIndex],
                  lineIndex := st.lineIndex + 1 }) ∧
    (jsTrim line = "" → strStartsWith line " " = false →
      ¬st.lineIndex < (originalLines.length : Int) →
      applyStep originalLines st line = st) ∧
    (strStartsWith line "---" = true →
      applyStep originalLines st line = { st with inDiff := true }) ∧
    (strStartsWith line "+++" = true →
      applyStep originalLines st line = { st with inDiff := true }) := by
  refine ⟨?_, ?_, ?_, ?_, ?_, ?_, ?_, ?_⟩
  · intro h1 h2
    obtain ⟨t, ht⟩ := strStartsWith_head line "+" '+' [] rfl h1
    have hd : strStartsWith line "---" = false :=
      strStartsWith_false_of_head line "---" '+' '-' t ['-', '-'] ht rfl (by decide)
    have ha : strStartsWith line "@@" = false :=
      strStartsWith_false_of_head line "@@" '+' '@' t ['@'] ht rfl (by decide)
    simp [applyStep, hd, h2, ha, hin, h1]
  · intro h1 h2
    obtain ⟨t, ht⟩ := strStartsWith_head line "-" '-' [] rfl h1
    have hp : strStartsWith line "+++" = false :=
      strStartsWith_false_of_head line "+++" '-' '+' t ['+', '+'] ht rfl (by decide)
    have ha : strStartsWith line "@@" = false :=
      strStartsWith_false_of_head line "@@" '-' '@' t ['@'] ht rfl (by decide)
    have hpl : strStartsWith line "+" = false :=
      strStartsWith_false_of_head line "+" '-' '+' t [] ht rfl (by decide)
    simp [applyStep, h2, hp, ha, hin, hpl, h1]
  · intro h1 hlt
    obtain ⟨t, ht⟩ := strStartsWith_head line " " ' ' [] rfl h1
    have hd : strStartsWith line "---" = false :=
      strStartsWith_false_of_head line "---" ' ' '-' t ['-', '-'] ht rfl (by decide)
    have hp : strStartsWith line "+++" = false :=
      strStartsWith_false_of_head line "+++" ' ' '+' t ['+', '+'] ht rfl (by decide)
    have ha : strStartsWith line "@@" = false :=
      strStartsWith_false_of_head line "@@" ' ' '@' t ['@'] ht rfl (by decide)
    have hpl : strStartsWith line "+" = false :=
      strStartsWith_false_of_head line "+" ' ' '+' t [] ht rfl (by decide)
    have hmi : strStartsWith line "-" = false :=
      strStartsWith_false_of_head line "-" ' ' '-' t [] ht rfl (by decide)
    simp [applyStep, hd, hp, ha, hin, hpl, hmi, h1, hlt]
  · intro h1 hge
    obtain ⟨t, ht⟩ := strStartsWith_head line " " ' ' [] rfl h1
    have hd : strStartsWith line "---" = false :=
      strStartsWith_false_of_head line "---" ' ' '-' t ['-', '-'] ht rfl (by decide)
    have hp : strStartsWith line "+++" = false :=
      strStartsWith_false_of_head line "+++" ' ' '+' t ['+', '+'] ht rfl (by decide)
    have ha : strStartsWith line "@@" = false :=
      strStartsWith_false_of_head line "@@" ' ' '@' t ['@'] ht rfl (by decide)
    have hpl : strStartsWith line "+" = false :=
      strStartsWith_false_of_head line "+" ' ' '+' t [] ht rfl (by decide)
    have hmi : strStartsWith line "-" = false :=
      strStartsWith_false_of_head line "-" ' ' '-' t [] ht rfl (by decide)
    simp [applyStep, hd, hp, ha, hin, hpl, hmi, h1, hge]
  · intro h0 hsp hlt
    have hd := blank_no_marker line "---" h0 '-' ['-', '-'] rfl (by decide)
    have hp := blank_no_marker line "+++" h0 '+' ['+', '+'] rfl (by decide)
    have ha := blank_no_marker line "@@" h0 '@' ['@'] rfl (by decide)
    have hpl := blank_no_marker line "+" h0 '+' [] rfl (by decide)
    have hmi := blank_no_marker line "-" h0 '-' [] rfl (by decide)
    simp [applyStep, hd, hp, ha, hin, hpl, hmi, hsp, h0, hlt]
  · intro h0 hsp hge
    have hd := blank_no_marker line "---" h0 '-' ['-', '-'] rfl (by decide)
    have hp := blank_no_marker line "+++" h0 '+' ['+', '+'] rfl (by decide)
    have ha := blank_no_marker line "@@" h0 '@' ['@'] rfl (by decide)
    have hpl := blank_no_marker line "+" h0 '+' [] rfl (by decide)
    have hmi := blank_no_marker line "-" h0 '-' [] rfl (by decide)
    simp [applyStep, hd, hp, ha, hin, hpl, hmi, hsp, h0, hge]
  · intro h1
    obtain ⟨t, ht⟩ := strStartsWith_head line "---" '-' ['-', '-'] rfl h1
    have ha : strStartsWith line "@@" = false :=
      strStartsWith_false_of_head line "@@" '-' '@' t ['@'] ht rfl (by decide)
    simp [applyStep, h1, ha]
  · intro h1
    obtain ⟨t, ht⟩ := strStartsWith_head line "+++" '+' ['+', '+'] rfl h1
    have ha : strStartsWith line "@@" = false :=
      strStartsWith_false_of_head line "@@" '+' '@' t ['@'] ht rfl (by decide)
    simp [applyStep, h1, ha]

/-- Witness for the amended C8 semantics on insertion, deletion, context
and blank lines at concrete states. -/
theorem applyStep_in_hunk_semantics_witness :
    applyStep ["x"] ⟨true, 0, []⟩ "+abc" = ⟨true, 0, ["abc"]⟩ ∧
    applyStep ["x"] ⟨true, 0, []⟩ "-abc" = ⟨true, 1, []⟩ ∧
    applyStep ["x"] ⟨true, 0, []⟩ " abc" = ⟨true, 1, ["x"]⟩ ∧
    applyStep ["x"] ⟨true, 0, []⟩ "" = ⟨true, 1, ["x"]⟩ := by
  refine ⟨?_, ?_, ?_, ?_⟩
  · exact ((applyStep_in_hunk_semantics ["x"] ⟨true, 0, []⟩ "+abc" rfl).1
      (by decide) (by decide)).trans (by decide)
  · exact ((applyStep_in_hunk_semantics ["x"] ⟨true, 0, []⟩ "-abc" rfl).2.1
      (by decide) (by decide)).trans (by decide)
  · exact ((applyStep_in_hunk_semantics ["x"] ⟨true, 0, []⟩ " abc" rfl).2.2.1
      (by decide) (by decide)).trans (by decide)
  · exact ((applyStep_in_hunk_semantics ["x"] ⟨true, 0, []⟩ "" rfl).2.2.2.2.1
      (by decide) (by decide) (by decide)).trans (by decide)

/-- C9: normalizer rejection (the Patch Normalizer exists only in the spec;
the definition is modelled from section 4.4).  The result is none exactly
when the shape is unparsable or one of the three fields is missing or
empty, and otherwise a Suggestion carrying the three fields. -/
theorem normalizeSuggestion_rejects_iff (filePath : String) (raw : Option RawCandidate) :
    (normalizeSuggestion filePath raw = none ↔
      raw = none ∨ ∃ r, raw = some r ∧
        (r.summary = none ∨ r.reasoning = none ∨ r.diffPatch = none ∨
         r.summary = some "" ∨ r.reasoning = some "" ∨ r.diffPatch = some "")) ∧
    (∀ s re d : String, raw = some ⟨some s, some re, some d⟩ →
      s ≠ "" → re ≠ "" → d ≠ "" →
      normalizeSuggestion filePath raw = some ⟨filePath, d, s, re⟩) := by
  constructor
  · cases raw with
    | none => simp [normalizeSuggestion]
    | some r =>
      obtain ⟨os, ore, od⟩ := r
      cases os with
      | none => simp [normalizeSuggestion]
      | some s =>
        cases ore with
        | none => simp [normalizeSuggestion]
        | some re =>
          cases od with
          | none => simp [normalizeSuggestion]
          | some d =>
            by_cases h : s = "" ∨ re = "" ∨ d = "" <;>
              simp [normalizeSuggestion, h]
  · rintro s re d rfl hs hre hd
    simp [normalizeSuggestion, hs, hre, hd]

/-- Witness for C9 on a well-formed candidate. -/
theorem normalizeSuggestion_rejects_iff_witness :
    normalizeSuggestion "README.md" (some ⟨some "s", some "r", some "d"⟩)
      = some ⟨"README.md", "d", "s", "r"⟩ :=
  (normalizeSuggestion_rejects_iff "README.md" (some ⟨some "s", some "r", some "d"⟩)).2
    "s" "r" "d" rfl (by decide) (by decide) (by decide)

/-- C10: the heuristic suggestion path is restricted to README.md.  For a
documentation file whose path is not exactly README.md, generateDiffPatch
returns none (both of its branches require that exact path), and therefore
analyzeDocumentationFile returns no suggestion, even when the needs-update
check returns true. -/
theorem heuristic_readme_only (docFile : DocFile) (input : AnalysisInput)
    (h : docFile.path ≠ "README.md") :
    generateDiffPatch docFile input = none ∧ analyzeDocumentationFile docFile input = none := by
  have hg : generateDiffPatch docFile input = none := by
    unfold generateDiffPatch
    simp [h]
  refine ⟨hg, ?_⟩
  unfold analyzeDocumentationFile
  rw [hg]
  cases hb : checkIfDocNeedsUpdate docFile input <;> simp [hb]

/-- Witness for C10: a documentation file that is not README.md for which
the needs-update check is true, yet no suggestion is produced. -/
theorem heuristic_readme_only_witness :
    checkIfDocNeedsUpdate ⟨"DOCS.md", "see a.ts here"⟩
        ⟨"", [⟨"a.ts", "+export function foo()", 1, 0, 1⟩], [], "t", "", ⟨"", ""⟩⟩ = true ∧
    analyzeDocumentationFile ⟨"DOCS.md", "see a.ts here"⟩
        ⟨"", [⟨"a.ts", "+export function foo()", 1, 0, 1⟩], [], "t", "", ⟨"", ""⟩⟩ = none :=
  ⟨by decide,
   (heuristic_readme_only ⟨"DOCS.md", "see a.ts here"⟩
      ⟨"", [⟨"a.ts", "+export function foo()", 1, 0, 1⟩], [], "t", "", ⟨"", ""⟩⟩
      (by decide)).2⟩
